import Mathlib

/-!
Verification of the reactive-store / selector / filter core of the
`react-performance` repository.

The embedding follows the source files:
* the observable store (`subscribe`, `getState`, `setState`, `shallowEqual`)
  from the store module;
* the selector subscription callback from `src/hooks/useSelector.js`;
* the filter engine (`filterWorkOrders`, `filterWorkOrdersAdvanced`)
  from `src/utils/mockData.js`.

JavaScript values relevant to `shallowEqual` are modelled by `JSVal`:
primitives carry their payload (numbers split into a rational part and a
distinguished NaN, since NaN breaks reflexivity of `===`), objects are
references into a heap mapping each reference to its ordered list of own
enumerable properties.
-/

inductive JSPrim where
  | undefined : JSPrim
  | jnull : JSPrim
  | jbool : Bool → JSPrim
  | num : ℚ → JSPrim
  | nan : JSPrim
  | str : String → JSPrim
deriving DecidableEq, Repr

inductive JSVal where
  | prim : JSPrim → JSVal
  | obj : Nat → JSVal
deriving DecidableEq, Repr

/-- A heap assigns to every object reference its ordered list of own
enumerable properties (`Object.keys` order). -/
def Heap : Type := Nat → List (String × JSVal)

/-- JavaScript strict equality `===`.  Object references compare by
identity; `NaN` is not equal to anything, itself included. -/
def strictEq (a b : JSVal) : Bool :=
  match a, b with
  | .prim .nan, _ => false
  | _, .prim .nan => false
  | x, y => x == y

/-- JavaScript loose `x == null`, true exactly for `null` and `undefined`. -/
def looseNull (a : JSVal) : Bool :=
  match a with
  | .prim .undefined => true
  | .prim .jnull => true
  | _ => false

/-- `typeof a === 'object'` for a value that is not `null` (the `null`
case is short-circuited by `looseNull` in `shallowEqual`). -/
def isObject (a : JSVal) : Bool :=
  match a with
  | .obj _ => true
  | _ => false

/-- `Object.keys(a)` for an object value, `[]` otherwise. -/
def jsKeys (h : Heap) (a : JSVal) : List String :=
  match a with
  | .obj r => (h r).map Prod.fst
  | _ => []

/-- Property access `a[k]`: a missing key reads as `undefined`. -/
def getProp (h : Heap) (r : Nat) (k : String) : JSVal :=
  match (h r).find? (fun p => p.1 == k) with
  | some p => p.2
  | none => .prim .undefined

/-- `shallowEqual(a, b)` from the store module, translated clause by
clause:
`if (a === b) return true; if (a == null || b == null) return false;
if (typeof a !== 'object' || typeof b !== 'object') return false;`
then compare `Object.keys` lengths and each `a[key] !== b[key]`. -/
def shallowEqual (h : Heap) (a b : JSVal) : Bool :=
  if strictEq a b then true
  else if looseNull a || looseNull b then false
  else if !isObject a || !isObject b then false
  else
    match a, b with
    | .obj ra, .obj rb =>
      let keysA := jsKeys h (.obj ra)
      let keysB := jsKeys h (.obj rb)
      if keysA.length ≠ keysB.length then false
      else keysA.all (fun k => strictEq (getProp h ra k) (getProp h rb k))
    | _, _ => false

/-!
## The observable store

The store module keeps a single `state` value and a JavaScript `Set` of
listeners.  A `Set` is an insertion-ordered collection without
duplicates; we model it as a `List Nat` of listener identifiers kept
free of duplicates by `subscribe` itself (the `Set.add` membership
test).

`Set.prototype.forEach` iterates the *live* collection: entries added
during iteration are visited in the same pass, entries deleted before
being visited are skipped.  The pass is therefore modelled with an
explicit split into visited and pending entries, and the listeners'
possible mutations of the set are modelled by the small syntax `LOp`
(subscribing or unsubscribing a listener while the pass runs), exactly
the operations the store exports that touch the listener set.
-/

structure Store (σ : Type) where
  state : σ
  listeners : List Nat
deriving Repr

def getState {σ : Type} (st : Store σ) : σ := st.state

/-- `subscribe`: `listeners.add(listener)`.  A JS `Set` keeps one slot
per identity, appending only unseen members at the end. -/
def subscribe {σ : Type} (st : Store σ) (l : Nat) : Store σ :=
  if l ∈ st.listeners then st
  else { st with listeners := st.listeners ++ [l] }

/-- The disposer returned by `subscribe`: `listeners.delete(listener)`.
`Set.delete` of an absent member is a silent no-op. -/
def unsubscribe {σ : Type} (st : Store σ) (l : Nat) : Store σ :=
  { st with listeners := st.listeners.erase l }

/-- What a listener may do to the listener set while being notified. -/
inductive LOp where
  | add : Nat → LOp
  | remove : Nat → LOp
deriving DecidableEq, Repr

/-- An environment assigns each listener identifier its behaviour: the
set mutations it performs when invoked. -/
def LEnv : Type := Nat → List LOp

/-- Apply a listener's mutations to the iterator state
`(visited, pending)`.  Adding appends to the end of the set (hence to
`pending`, still to be visited); deleting removes the entry wherever it
currently is. -/
def runOps (ops : List LOp) (vp : List Nat × List Nat) : List Nat × List Nat :=
  ops.foldl
    (fun vp op =>
      match op with
      | .add j => if j ∈ vp.1 ∨ j ∈ vp.2 then vp else (vp.1, vp.2 ++ [j])
      | .remove j => (vp.1.erase j, vp.2.erase j))
    vp

/-- `listeners.forEach(listener => listener())` with live-set
semantics.  Returns the listener list as it stands after the pass and
the invocation log: one `(listener, observed state)` entry per call, in
call order.  The state is fixed during the pass because `setState`
replaced it before starting the loop.  `fuel` bounds the number of
calls; every use below supplies enough fuel for the pass to finish. -/
def notify {σ : Type} (env : LEnv) (s : σ) :
    Nat → List Nat → List Nat → List Nat × List (Nat × σ)
  | 0, visited, pending => (visited ++ pending, [])
  | fuel + 1, visited, pending =>
    match pending with
    | [] => (visited, [])
    | l :: rest =>
      let vp := runOps (env l) (visited ++ [l], rest)
      let res := notify env s fuel vp.1 vp.2
      (res.1, (l, s) :: res.2)

/-- `setState` accepts either a literal next state or an updater
function; the function may throw (modelled by `Except`). -/
inductive Updater (σ ε : Type) where
  | lit : σ → Updater σ ε
  | fn : (σ → Except ε σ) → Updater σ ε

def applyUpdater {σ ε : Type} (u : Updater σ ε) (s : σ) : Except ε σ :=
  match u with
  | .lit s2 => .ok s2
  | .fn f => f s

/-- `setState(updater)`:
`state = typeof updater === 'function' ? updater(state) : updater;
listeners.forEach(listener => listener());`
If the updater throws, the exception propagates before the assignment:
the store is returned untouched, nobody is notified, and the error is
reported in the third component.  Otherwise the state is replaced
first and the pass then runs over the live listener set. -/
def setState {σ ε : Type} (env : LEnv) (fuel : Nat) (st : Store σ)
    (u : Updater σ ε) : Store σ × List (Nat × σ) × Option ε :=
  match applyUpdater u st.state with
  | .error e => (st, [], some e)
  | .ok s2 =>
    let res := notify env s2 fuel [] st.listeners
    ({ state := s2, listeners := res.1 }, res.2, none)

/-- A sequence of `setState` calls with literal states, collecting each
call's invocation log. -/
def runSeq {σ : Type} (env : LEnv) (fuel : Nat) :
    List σ → Store σ → Store σ × List (List (Nat × σ))
  | [], st => (st, [])
  | s :: ss, st =>
    let r := setState (ε := Unit) env fuel st (.lit s)
    let rest := runSeq env fuel ss r.1
    (rest.1, r.2.1 :: rest.2)

/-!
## The selector subscription manager (`useSelector`)

The callback the hook subscribes to the store is
```
const newSelected = selector(getState());
if (!shallowEqual(lastSelectedRef.current, newSelected)) {
  lastSelectedRef.current = newSelected;
  setSelected(newSelected);
}
```
`onStoreNotify` returns the new `lastSelectedRef.current` value together
with the signal sent to the owner (`some newSelected` when `setSelected`
is called, `none` otherwise).
-/

def onStoreNotify {σ : Type} (h : Heap) (selector : σ → JSVal) (storeState : σ)
    (lastSelected : JSVal) : JSVal × Option JSVal :=
  let newSelected := selector storeState
  if !shallowEqual h lastSelected newSelected then (newSelected, some newSelected)
  else (lastSelected, none)

/-!
## The filter engine (`src/utils/mockData.js`)

Records are modelled with their textual fields verbatim; the two date
fields hold the timestamp that `new Date(isoString).getTime()` would
yield, since `filterWorkOrdersAdvanced` only ever compares dates as
points on the time line.
-/

structure WorkOrder where
  id : String
  title : String
  description : String
  status : String
  priority : String
  assignee : String
  department : String
  workType : String
  createdDate : Int
  dueDate : Int
  estimatedHours : Nat
  completionPercentage : Nat
deriving DecidableEq, Repr

/-- `String.prototype.includes`: `needle` occurs contiguously in the
haystack (the empty needle occurs everywhere). -/
def listIncludes (needle : List Char) : List Char → Bool
  | [] => needle.isEmpty
  | c :: t => needle.isPrefixOf (c :: t) || listIncludes needle t

def strIncludes (hay needle : String) : Bool :=
  listIncludes needle.toList hay.toList

/-- `String.prototype.toLowerCase` (character-wise lowering). -/
def jsToLower (s : String) : String :=
  String.mk (s.toList.map Char.toLower)

/-- `String.prototype.trim`: drop whitespace from both ends. -/
def jsTrim (s : String) : String :=
  String.mk
    (((s.toList.dropWhile Char.isWhitespace).reverse.dropWhile
      Char.isWhitespace).reverse)

/-- The predicate of `filterWorkOrders`'s `Array.prototype.filter`
callback, for an already-lowercased term. -/
def woMatchesTerm (term : String) (wo : WorkOrder) : Bool :=
  strIncludes (jsToLower wo.id) term ||
  strIncludes (jsToLower wo.title) term ||
  strIncludes (jsToLower wo.assignee) term ||
  strIncludes (jsToLower wo.department) term ||
  strIncludes (jsToLower wo.status) term

/-- `filterWorkOrders(workOrders, searchTerm)`: blank-term passthrough
(`!searchTerm || searchTerm.trim() === ''`), otherwise a linear
`filter` with a case-insensitive substring match over the five fields
id, title, assignee, department, status. -/
def filterWorkOrders (workOrders : List WorkOrder) (searchTerm : String) :
    List WorkOrder :=
  if searchTerm == "" || jsTrim searchTerm == "" then workOrders
  else
    let term := jsToLower searchTerm
    workOrders.filter (woMatchesTerm term)

/-- The structured criteria object.  The select-driven fields arrive as
strings where the empty string plays the role of any falsy/absent value
(`filters.status &&` short-circuit) and `"All"` is the explicit
no-constraint sentinel; the optional dates are either absent (falsy) or
a parsed timestamp. -/
structure Filters where
  status : String
  priority : String
  department : String
  startDate : Option Int
  endDate : Option Int
deriving DecidableEq, Repr

/-- The predicate of `filterWorkOrdersAdvanced`'s `filter` callback,
translated guard by guard (each early `return false` becomes an
`if ... then false else`). -/
def woPasses (f : Filters) (wo : WorkOrder) : Bool :=
  if f.status != "" && f.status != "All" && wo.status != f.status then false
  else if f.priority != "" && f.priority != "All" && wo.priority != f.priority then
    false
  else if f.department != "" && f.department != "All" &&
      wo.department != f.department then false
  else if (match f.startDate with
           | some sd => decide (wo.createdDate < sd)
           | none => false) then false
  else if (match f.endDate with
           | some ed => decide (ed < wo.createdDate)
           | none => false) then false
  else true

/-- `filterWorkOrdersAdvanced(workOrders, filters)`. -/
def filterWorkOrdersAdvanced (workOrders : List WorkOrder) (f : Filters) :
    List WorkOrder :=
  workOrders.filter (woPasses f)

/-- The spec's reading of the criteria filter, written as the claim
states it: a conjunction of per-field clauses, each disabled by the
absent/`"All"` sentinel, with inclusive date bounds. -/
def passesCriteriaSpec (f : Filters) (wo : WorkOrder) : Bool :=
  (f.status == "" || f.status == "All" || wo.status == f.status) &&
  (f.priority == "" || f.priority == "All" || wo.priority == f.priority) &&
  (f.department == "" || f.department == "All" || wo.department == f.department) &&
  (match f.startDate with
   | some sd => decide (sd ≤ wo.createdDate)
   | none => true) &&
  (match f.endDate with
   | some ed => decide (wo.createdDate ≤ ed)
   | none => true)

/-!
## Concrete listener behaviours used to exercise mid-pass mutation
-/

/-- Listener 1 subscribes listener 2 while being notified; everyone
else leaves the set alone. -/
def envAddDuringPass : LEnv := fun l => if l = 1 then [LOp.add 2] else []

/-- Listener 1 unsubscribes listener 2 while being notified; everyone
else leaves the set alone. -/
def envRemoveDuringPass : LEnv := fun l => if l = 1 then [LOp.remove 2] else []

/-!
## Concrete records used to exercise the filter engine
-/

/-- A sample record in the shape produced by `generateWorkOrder`. -/
def sampleWO : WorkOrder :=
  { id := "WO-000003"
    title := "Equipment Repair - Engineering #3"
    description := "Perform equipment repair for Engineering department."
    status := "Open"
    priority := "High"
    assignee := "Alice Johnson"
    department := "Engineering"
    workType := "Equipment Repair"
    createdDate := 100
    dueDate := 200
    estimatedHours := 5
    completionPercentage := 50 }

/-- A record whose only occurrence of the token `zqx` is in its
description — a field `filterWorkOrders` does not consult. -/
def descOnlyWO : WorkOrder :=
  { id := "WO-000004"
    title := "Routine check"
    description := "zqx anomaly"
    status := "Open"
    priority := "Low"
    assignee := "Bob Smith"
    department := "Operations"
    workType := "Inspection"
    createdDate := 100
    dueDate := 200
    estimatedHours := 2
    completionPercentage := 10 }

/-!
## Supporting lemmas
-/

lemma strictEq_refl_of_ne_nan (a : JSVal) (ha : a ≠ .prim .nan) :
    strictEq a a = true := by
  cases a with
  | prim p => cases p <;> simp_all [strictEq]
  | obj r => simp [strictEq]

lemma shallowEqual_prim_left (h : Heap) (p : JSPrim) (b : JSVal) :
    shallowEqual h (.prim p) b = strictEq (.prim p) b := by
  unfold shallowEqual
  split
  · next hs => exact hs.symm
  · next hs =>
    simp only [Bool.not_eq_true] at hs
    rw [hs]
    simp [isObject]

lemma shallowEqual_obj_prim (h : Heap) (ra : Nat) (q : JSPrim) :
    shallowEqual h (.obj ra) (.prim q) = strictEq (.obj ra) (.prim q) := by
  unfold shallowEqual
  split
  · next hs => exact hs.symm
  · next hs =>
    simp only [Bool.not_eq_true] at hs
    rw [hs]
    simp [isObject]

lemma strictEq_obj_obj (ra rb : Nat) :
    strictEq (.obj ra) (.obj rb) = (ra == rb) := by
  simp [strictEq]

lemma shallowEqual_obj_obj (h : Heap) (ra rb : Nat) (hr : ra ≠ rb) :
    shallowEqual h (.obj ra) (.obj rb) =
      if (jsKeys h (.obj ra)).length = (jsKeys h (.obj rb)).length then
        (jsKeys h (.obj ra)).all
          (fun k => strictEq (getProp h ra k) (getProp h rb k))
      else false := by
  have hs : strictEq (.obj ra) (.obj rb) = false := by
    simp [strictEq_obj_obj, hr]
  unfold shallowEqual
  simp only [hs, Bool.false_eq_true, if_false, looseNull, isObject,
    Bool.or_self, Bool.not_true, Bool.or_false, Bool.false_or]
  rw [ite_not]

/-- C8: `shallowEqual(a, b)` is true exactly when `a === b`, or both
values are non-null objects with the same number of own enumerable keys
and, for every own key `k` of `a`, `a[k] === b[k]` (a missing key
reading as `undefined`); moreover `shallowEqual(NaN, NaN)` is false. -/
theorem shallowEqual_spec (h : Heap) (a b : JSVal) :
    (shallowEqual h a b = true ↔
      (strictEq a b = true ∨
        ∃ ra rb, a = JSVal.obj ra ∧ b = JSVal.obj rb ∧
          (jsKeys h a).length = (jsKeys h b).length ∧
          ∀ k ∈ jsKeys h a, strictEq (getProp h ra k) (getProp h rb k) = true)) ∧
    shallowEqual h (.prim .nan) (.prim .nan) = false := by
  constructor
  · cases a with
    | prim p =>
      rw [shallowEqual_prim_left]
      constructor
      · exact Or.inl
      · rintro (hs | ⟨ra, rb, hra, _⟩)
        · exact hs
        · simp at hra
    | obj ra =>
      cases b with
      | prim q =>
        rw [shallowEqual_obj_prim]
        constructor
        · exact Or.inl
        · rintro (hs | ⟨ra', rb', _, hrb, _⟩)
          · exact hs
          · simp at hrb
      | obj rb =>
        by_cases hr : ra = rb
        · subst hr
          have hs : strictEq (.obj ra) (.obj ra) = true := by
            simp [strictEq_obj_obj]
          constructor
          · intro _
            exact Or.inl hs
          · intro _
            unfold shallowEqual
            rw [hs]
            rfl
        · rw [shallowEqual_obj_obj h ra rb hr]
          have hs : strictEq (.obj ra) (.obj rb) = false := by
            simp [strictEq_obj_obj, hr]
          by_cases hlen : (jsKeys h (.obj ra)).length = (jsKeys h (.obj rb)).length
          · simp only [hlen, if_true, List.all_eq_true, hs, Bool.false_eq_true,
              false_or, JSVal.obj.injEq]
            constructor
            · intro hall
              exact ⟨ra, rb, rfl, rfl, trivial, hall⟩
            · rintro ⟨ra', rb', hra', hrb', _, hall⟩
              cases hra'
              cases hrb'
              exact hall
          · simp only [hlen, if_false, hs, Bool.false_eq_true, false_iff, false_or]
            rintro ⟨ra', rb', hra', hrb', hlen', _⟩
            cases hra'
            cases hrb'
            exact hlen'
  · rfl

/-- C1: on a store notification, if the new projection is shallow-equal
to the last-observed one the manager neither signals the owner nor
changes the last-observed projection; if it is not shallow-equal, the
manager records the new projection and signals the owner exactly once
with it. -/
theorem useSelector_equality_gating {σ : Type} (h : Heap)
    (selector : σ → JSVal) (s1 s2 : σ) :
    (shallowEqual h (selector s1) (selector s2) = true →
      onStoreNotify h selector s2 (selector s1) = (selector s1, none)) ∧
    (shallowEqual h (selector s1) (selector s2) = false →
      onStoreNotify h selector s2 (selector s1) =
        (selector s2, some (selector s2))) := by
  constructor
  · intro he
    simp [onStoreNotify, he]
  · intro he
    simp [onStoreNotify, he]

theorem useSelector_equality_gating_witness :
    onStoreNotify (fun _ => []) (fun s => s) (JSVal.prim (.str "x"))
        (JSVal.prim (.str "x")) = (JSVal.prim (.str "x"), none) ∧
    onStoreNotify (fun _ => []) (fun s => s) (JSVal.prim (.str "y"))
        (JSVal.prim (.str "x")) =
      (JSVal.prim (.str "y"), some (JSVal.prim (.str "y"))) :=
  ⟨(useSelector_equality_gating (fun _ => []) (fun s => s)
      (JSVal.prim (.str "x")) (JSVal.prim (.str "x"))).1 (by decide),
   (useSelector_equality_gating (fun _ => []) (fun s => s)
      (JSVal.prim (.str "x")) (JSVal.prim (.str "y"))).2 (by decide)⟩

lemma runOps_nil (vp : List Nat × List Nat) : runOps [] vp = vp := rfl

/-- When no listener mutates the listener set, the pass visits exactly
the pending listeners, in order, and leaves the set unchanged. -/
lemma notify_pure {σ : Type} (env : LEnv) (henv : ∀ l, env l = []) (s : σ) :
    ∀ (fuel : Nat) (v p : List Nat), p.length ≤ fuel →
      notify env s fuel v p = (v ++ p, p.map (fun l => (l, s))) := by
  intro fuel
  induction fuel with
  | zero =>
    intro v p hp
    have : p = [] := List.length_eq_zero.mp (Nat.le_zero.mp hp)
    subst this
    simp [notify]
  | succ n ih =>
    intro v p hp
    cases p with
    | nil => simp [notify]
    | cons l rest =>
      have hlen : rest.length ≤ n := by
        simpa [Nat.succ_le_succ_iff] using hp
      simp only [notify, henv l, runOps_nil]
      rw [ih (v ++ [l]) rest hlen]
      simp

/-- C3: a throwing updater makes `setState` propagate the exception,
leave the state authoritative (`getState` still returns it) and invoke
no listener. -/
theorem setState_throw_propagates {σ ε : Type} (env : LEnv) (fuel : Nat)
    (st : Store σ) (u : Updater σ ε) (e : ε)
    (hu : applyUpdater u st.state = .error e) :
    setState env fuel st u = (st, [], some e) ∧
    getState (setState env fuel st u).1 = getState st := by
  refine ⟨?_, ?_⟩ <;> simp [setState, hu]

theorem setState_throw_propagates_witness :
    setState (fun _ => []) 5 (Store.mk 0 [7])
        (Updater.fn (σ := Nat) (fun _ => Except.error ())) =
      (Store.mk 0 [7], [], some ()) :=
  (setState_throw_propagates (fun _ => []) 5 (Store.mk 0 [7])
    (Updater.fn (fun _ => Except.error ())) () rfl).1

lemma setState_pure {σ : Type} (env : LEnv) (henv : ∀ l, env l = [])
    (fuel : Nat) (st : Store σ) (s2 : σ)
    (hfuel : st.listeners.length ≤ fuel) :
    setState (ε := Unit) env fuel st (.lit s2) =
      (⟨s2, st.listeners⟩, st.listeners.map (fun l => (l, s2)), none) := by
  simp only [setState, applyUpdater]
  rw [notify_pure env henv s2 fuel [] st.listeners hfuel]
  simp

lemma runSeq_pure {σ : Type} (env : LEnv) (henv : ∀ l, env l = [])
    (fuel : Nat) (L : List Nat) (hfuel : L.length ≤ fuel) :
    ∀ (ss : List σ) (st : Store σ), st.listeners = L →
      (runSeq env fuel ss st).2 = ss.map (fun s => L.map (fun l => (l, s))) ∧
      (runSeq env fuel ss st).1.listeners = L := by
  intro ss
  induction ss with
  | nil =>
    intro st hst
    simp [runSeq, hst]
  | cons s ss ih =>
    intro st hst
    have h1 : setState (ε := Unit) env fuel st (.lit s) =
        (⟨s, L⟩, L.map (fun l => (l, s)), none) := by
      rw [setState_pure env henv fuel st s (hst ▸ hfuel), hst]
    obtain ⟨h2, h3⟩ := ih ⟨s, L⟩ rfl
    simp only [runSeq, h1]
    exact ⟨by simp [h2], by simp [h3]⟩

/-- C4: with non-mutating listeners, `setState` replaces the state
before the pass: every registered listener is invoked exactly once, in
registration order, observing the new state during its invocation; and
a sequence of n literal updates notifies each listener once per call,
in call order, with no coalescing. -/
theorem setState_listener_isolation {σ : Type} (env : LEnv)
    (henv : ∀ l, env l = []) (fuel : Nat) (st : Store σ) (s2 : σ)
    (hfuel : st.listeners.length ≤ fuel) (hnodup : st.listeners.Nodup) :
    (setState (ε := Unit) env fuel st (.lit s2) =
      (⟨s2, st.listeners⟩, st.listeners.map (fun l => (l, s2)), none)) ∧
    (∀ l ∈ st.listeners,
      (setState (ε := Unit) env fuel st (.lit s2)).2.1.countP
        (fun e => e.1 == l) = 1) ∧
    (∀ e ∈ (setState (ε := Unit) env fuel st (.lit s2)).2.1, e.2 = s2) ∧
    (∀ ss : List σ, (runSeq env fuel ss st).2 =
      ss.map (fun s => st.listeners.map (fun l => (l, s)))) := by
  have hset := setState_pure env henv fuel st s2 hfuel
  refine ⟨hset, ?_, ?_, ?_⟩
  · intro l hl
    rw [hset]
    have hcp : (st.listeners.map (fun j => (j, s2))).countP
        (fun e => e.1 == l) = st.listeners.countP (fun j => j == l) := by
      rw [List.countP_map]
      rfl
    have hone : st.listeners.countP (fun j => j == l) = 1 :=
      List.count_eq_one_of_mem hnodup hl
    exact hcp.trans hone
  · intro e he
    rw [hset] at he
    simp only [List.mem_map] at he
    obtain ⟨l, _, rfl⟩ := he
    rfl
  · intro ss
    exact (runSeq_pure env henv fuel st.listeners hfuel ss st rfl).1

theorem setState_listener_isolation_witness :
    setState (ε := Unit) (fun _ => []) 5 (Store.mk 0 [1, 2])
        (Updater.lit 42) =
      (Store.mk 42 [1, 2], [(1, 42), (2, 42)], none) :=
  (setState_listener_isolation (fun _ => []) (fun _ => rfl) 5
    (Store.mk 0 [1, 2]) 42 (by decide) (by decide)).1

lemma countP_log_eq_count {σ : Type} (L : List Nat) (s2 : σ) (l : Nat) :
    (L.map (fun j => (j, s2))).countP (fun e => e.1 == l) = L.count l := by
  rw [List.countP_map]
  rfl

/-- C2 counterexample: `setState` iterates the live `Set`, not a
snapshot.  With listeners `{1}` where listener 1 subscribes listener 2
mid-pass, the snapshot claim demands that 2 is not invoked in the same
pass — yet it is.  With listeners `{1, 2}` where listener 1
unsubscribes listener 2 mid-pass, the claim demands that 2 (registered
at the start of the pass) still be invoked — yet it is skipped. -/
theorem store_snapshot_claim_cex :
    ¬ (2 ∉ ((setState (ε := Unit) envAddDuringPass 5 (Store.mk 0 [1])
          (Updater.lit 1)).2.1.map Prod.fst) ∧
       2 ∈ ((setState (ε := Unit) envRemoveDuringPass 5 (Store.mk 0 [1, 2])
          (Updater.lit 1)).2.1.map Prod.fst)) := by decide

/-- C2 amended: the notification pass iterates the live listener set in
insertion order rather than a start-of-pass snapshot.  When no listener
mutates the set, every listener registered at the start is invoked
exactly once, in registration order; a listener added mid-pass is
appended and invoked in that same pass; an original listener removed
mid-pass before being reached is skipped. -/
theorem store_live_notification {σ : Type} (env : LEnv)
    (henv : ∀ l, env l = []) (fuel : Nat) (st : Store σ) (s2 : σ)
    (hfuel : st.listeners.length ≤ fuel) :
    (setState (ε := Unit) env fuel st (.lit s2) =
      (⟨s2, st.listeners⟩, st.listeners.map (fun l => (l, s2)), none)) ∧
    ((setState (ε := Unit) envAddDuringPass 5 (Store.mk 0 [1])
        (Updater.lit 1)).2.1.map Prod.fst = [1, 2]) ∧
    ((setState (ε := Unit) envRemoveDuringPass 5 (Store.mk 0 [1, 2])
        (Updater.lit 1)).2.1.map Prod.fst = [1]) :=
  ⟨setState_pure env henv fuel st s2 hfuel, by decide, by decide⟩

theorem store_live_notification_witness :
    setState (ε := Unit) (fun _ => []) 3 (Store.mk 0 [4, 9])
        (Updater.lit 7) =
      (Store.mk 7 [4, 9], [(4, 7), (9, 7)], none) :=
  (store_live_notification (fun _ => []) (fun _ => rfl) 3 (Store.mk 0 [4, 9]) 7
    (by decide)).1

/-- C9: calling the disposer a second time is a silent no-op: the store
is unchanged, every other listener's registration is unaffected, and
each remaining registered listener is still notified exactly once by
every subsequent `setState`. -/
theorem unsubscribe_idempotent {σ : Type} (st : Store σ) (l : Nat)
    (hnodup : st.listeners.Nodup) (env : LEnv) (henv : ∀ j, env j = [])
    (fuel : Nat) (hfuel : st.listeners.length ≤ fuel) :
    unsubscribe (unsubscribe st l) l = unsubscribe st l ∧
    (∀ l', l' ≠ l →
      (l' ∈ (unsubscribe (unsubscribe st l) l).listeners ↔
        l' ∈ st.listeners)) ∧
    (∀ l' ∈ (unsubscribe (unsubscribe st l) l).listeners, ∀ s2 : σ,
      (setState (ε := Unit) env fuel (unsubscribe (unsubscribe st l) l)
        (.lit s2)).2.1.countP (fun e => e.1 == l') = 1) := by
  have hnm : l ∉ st.listeners.erase l := hnodup.not_mem_erase
  have hid : unsubscribe (unsubscribe st l) l = unsubscribe st l := by
    simp [unsubscribe, List.erase_of_not_mem hnm]
  refine ⟨hid, ?_, ?_⟩
  · intro l' hne
    rw [hid]
    exact List.mem_erase_of_ne hne
  · intro l' hl' s2
    rw [hid] at hl' ⊢
    have hfuel' : (unsubscribe st l).listeners.length ≤ fuel :=
      le_trans ((List.erase_sublist l st.listeners).length_le) hfuel
    rw [setState_pure env henv fuel (unsubscribe st l) s2 hfuel']
    rw [countP_log_eq_count]
    exact List.count_eq_one_of_mem (hnodup.erase l) hl'

theorem unsubscribe_idempotent_witness :
    unsubscribe (unsubscribe (Store.mk 0 [3, 5]) 3) 3 =
      unsubscribe (Store.mk 0 [3, 5]) 3 :=
  (unsubscribe_idempotent (Store.mk 0 [3, 5]) 3 (by decide) (fun _ => [])
    (fun _ => rfl) 4 (by decide)).1

/-- C10: passing the same callback to `subscribe` twice creates a
single registration: the second call leaves the store unchanged, each
`setState` invokes the callback exactly once, and one disposer call
removes it entirely, so later notification passes never invoke it. -/
theorem subscribe_dedup {σ : Type} (st : Store σ) (l : Nat)
    (hnodup : st.listeners.Nodup) (env : LEnv) (henv : ∀ j, env j = [])
    (fuel : Nat) (hfuel : st.listeners.length + 1 ≤ fuel) (s2 : σ) :
    subscribe (subscribe st l) l = subscribe st l ∧
    (setState (ε := Unit) env fuel (subscribe (subscribe st l) l)
      (.lit s2)).2.1.countP (fun e => e.1 == l) = 1 ∧
    l ∉ (unsubscribe (subscribe (subscribe st l) l) l).listeners ∧
    (setState (ε := Unit) env fuel
        (unsubscribe (subscribe (subscribe st l) l) l)
      (.lit s2)).2.1.countP (fun e => e.1 == l) = 0 := by
  have hmem : l ∈ (subscribe st l).listeners := by
    by_cases hl : l ∈ st.listeners <;> simp [subscribe, hl]
  have hid : subscribe (subscribe st l) l = subscribe st l := by
    rw [subscribe, if_pos hmem]
  have hnodup1 : (subscribe st l).listeners.Nodup := by
    by_cases hl : l ∈ st.listeners
    · simpa [subscribe, hl] using hnodup
    · simp only [subscribe, hl, if_false]
      rw [List.nodup_append]
      exact ⟨hnodup, List.nodup_singleton l, by simpa using hl⟩
  have hlen1 : (subscribe st l).listeners.length ≤ fuel := by
    by_cases hl : l ∈ st.listeners
    · simp only [subscribe, hl, if_true]
      omega
    · simp only [subscribe, hl, if_false, List.length_append,
        List.length_singleton]
      omega
  have hnotmem : l ∉ (subscribe st l).listeners.erase l :=
    hnodup1.not_mem_erase
  refine ⟨hid, ?_, ?_, ?_⟩
  · rw [hid, setState_pure env henv fuel (subscribe st l) s2 hlen1,
      countP_log_eq_count]
    exact List.count_eq_one_of_mem hnodup1 hmem
  · rw [hid]
    exact hnotmem
  · rw [hid]
    have hlen2 : (unsubscribe (subscribe st l) l).listeners.length ≤ fuel :=
      le_trans ((List.erase_sublist l (subscribe st l).listeners).length_le)
        hlen1
    rw [setState_pure env henv fuel (unsubscribe (subscribe st l) l) s2 hlen2,
      countP_log_eq_count]
    exact List.count_eq_zero.mpr hnotmem

theorem subscribe_dedup_witness :
    subscribe (subscribe (Store.mk 0 [6]) 8) 8 = subscribe (Store.mk 0 [6]) 8 :=
  (subscribe_dedup (Store.mk 0 [6]) 8 (by decide) (fun _ => [])
    (fun _ => rfl) 9 (by decide) 11).1

lemma cond_false_else (c r : Bool) : (if c = true then false else r) = (!c && r) := by
  cases c <;> simp

lemma not_decide_lt (a b : Int) : (!decide (a < b)) = decide (b ≤ a) := by
  simp [← decide_not, Int.not_lt]

/-- The guard chain of `filterWorkOrdersAdvanced` coincides with the
conjunctive reading of the criteria. -/
lemma woPasses_eq_spec (f : Filters) (wo : WorkOrder) :
    woPasses f wo = passesCriteriaSpec f wo := by
  unfold woPasses passesCriteriaSpec
  cases f.startDate <;> cases f.endDate <;>
    simp only [cond_false_else, Bool.not_and, bne, Bool.not_not, not_decide_lt,
      Bool.not_false, Bool.and_true, Bool.true_and, Bool.and_assoc, Bool.or_assoc]

lemma filterWorkOrders_blank (records : List WorkOrder) (t : String)
    (ht : jsTrim t = "") : filterWorkOrders records t = records := by
  simp [filterWorkOrders, ht]

lemma filterWorkOrders_nonblank (records : List WorkOrder) (t : String)
    (ht : jsTrim t ≠ "") :
    filterWorkOrders records t =
      records.filter (woMatchesTerm (jsToLower t)) := by
  have ht0 : t ≠ "" := by
    intro h0
    subst h0
    exact ht rfl
  simp [filterWorkOrders, ht, ht0]

/-- C5: a blank (empty or whitespace-only) term returns the input list
itself, same count and order; a non-blank term keeps exactly those
records, in input order, whose lowercased id, title, assignee,
department or status contains the lowercased term as a substring; a
record whose only occurrence of the term is in another field (here the
description) is dropped.  The operation is a pure `List.filter`, so
neither the input list nor any record is mutated. -/
theorem filterWorkOrders_term_spec (records : List WorkOrder) (t : String) :
    (jsTrim t = "" → filterWorkOrders records t = records) ∧
    (jsTrim t ≠ "" →
      filterWorkOrders records t =
        records.filter (woMatchesTerm (jsToLower t))) ∧
    filterWorkOrders [descOnlyWO] "zqx" = [] :=
  ⟨filterWorkOrders_blank records t, filterWorkOrders_nonblank records t,
    by decide⟩

theorem filterWorkOrders_term_spec_witness :
    filterWorkOrders [sampleWO] " " = [sampleWO] ∧
    filterWorkOrders [sampleWO] "ALICE" =
      List.filter (woMatchesTerm (jsToLower "ALICE")) [sampleWO] :=
  ⟨(filterWorkOrders_term_spec [sampleWO] " ").1 (by decide),
   (filterWorkOrders_term_spec [sampleWO] "ALICE").2.1 (by decide)⟩

/-- C6: the criteria filter keeps exactly those records, in input
order, satisfying the conjunction of the per-field clauses — each
equality clause disabled by an absent (falsy) or `"All"` constraint,
the date clauses inclusive on both ends and disabled when absent; there
is no disjunctive mode across fields. -/
theorem filterWorkOrdersAdvanced_conjunctive (records : List WorkOrder)
    (f : Filters) :
    filterWorkOrdersAdvanced records f =
      records.filter (passesCriteriaSpec f) := by
  unfold filterWorkOrdersAdvanced
  exact List.filter_congr (fun wo _ => woPasses_eq_spec f wo)

/-- C7: composing the term filter with the criteria filter keeps
exactly those records passing both (intersection semantics), in their
original relative order. -/
theorem filter_composition_intersection (records : List WorkOrder)
    (t : String) (f : Filters) (ht : jsTrim t ≠ "") :
    filterWorkOrdersAdvanced (filterWorkOrders records t) f =
      records.filter
        (fun wo => woMatchesTerm (jsToLower t) wo && woPasses f wo) ∧
    (filterWorkOrdersAdvanced (filterWorkOrders records t) f).Sublist
      records := by
  have h1 : filterWorkOrdersAdvanced (filterWorkOrders records t) f =
      records.filter
        (fun wo => woMatchesTerm (jsToLower t) wo && woPasses f wo) := by
    rw [filterWorkOrders_nonblank records t ht]
    unfold filterWorkOrdersAdvanced
    rw [List.filter_filter]
    exact List.filter_congr (fun wo _ => Bool.and_comm _ _)
  refine ⟨h1, ?_⟩
  rw [h1]
  exact List.filter_sublist records

theorem filter_composition_intersection_witness :
    filterWorkOrdersAdvanced (filterWorkOrders [sampleWO] "alice")
        (Filters.mk "" "" "" none none) =
      List.filter
        (fun wo => woMatchesTerm (jsToLower "alice") wo &&
          woPasses (Filters.mk "" "" "" none none) wo) [sampleWO] :=
  (filter_composition_intersection [sampleWO] "alice"
    (Filters.mk "" "" "" none none) (by decide)).1
